import Mathlib

/-!
Shallow embedding of `probability::WindowedMedian`
(src/probability/windowed_median.cpp).

The C++ class keeps three pieces of state:
  * `_windowSize : const int` — the fixed window size (signed 32-bit);
  * `_window : std::list<int>` — the sliding window, front = oldest;
  * `_sortedValues : std::multiset<int>` — the same values in sorted order;
  * `_itMedian` — a `const_iterator` into `_sortedValues`.

Modelling choices, each tied to the C++ semantics:
  * `std::multiset<int>` is a sorted `List Int`; `insert` places a new
    value at the upper bound of its equal range (guaranteed since C++11),
    and `find` returns the first element of the equal range (what
    libstdc++ and libc++ implement).
  * The iterator `_itMedian` is an index into the sorted list, wrapped in
    `Option`: `none` models a singular iterator (the value-initialized
    iterator before any insertion) or a dangling iterator (its node was
    erased).  The past-the-end iterator is the index `length` itself,
    which a later dereference turns into `none` as well.
  * Every place the C++ would exhibit undefined behaviour — dereferencing
    a singular/dangling/end iterator, `--` on `begin()`, `erase(end())` —
    the model returns `none`; operations therefore return
    `Option WindowedMedian`.
  * `int` values are `Int`; `float` arithmetic `0.5f * a + 0.5f * b` is
    modelled exactly over `ℚ` as `a / 2 + b / 2`.
  * The comparison `_window.size() > _windowSize` compares `size_t`
    against `int`: the signed value is converted to `size_t`, i.e. taken
    mod 2^64; `toSizeT` models that conversion.
-/

namespace probability

/-- Index of `std::multiset::insert`'s insertion point: the upper bound of
`v`'s equal range in the sorted list `l` (first position whose element is
greater than `v`). -/
def upperIdx (l : List Int) (v : Int) : Nat :=
  (l.takeWhile (fun x => decide (x ≤ v))).length

/-- Index returned by `std::multiset::find`: the first element of `v`'s
equal range in the sorted list `l` (lower bound). -/
def lowerIdx (l : List Int) (v : Int) : Nat :=
  (l.takeWhile (fun x => decide (x < v))).length

/-- `static_cast<std::size_t>` of a signed window size, as performed by the
comparison `_window.size() > _windowSize` (value taken mod 2^64). -/
def toSizeT (w : Int) : Nat := (w % (2 : Int) ^ 64).toNat

/-- The state of a `probability::WindowedMedian` object. -/
structure WindowedMedian where
  _windowSize : Int
  _window : List Int
  _sortedValues : List Int
  _itMedian : Option Nat
deriving DecidableEq

/-- The constructor `WindowedMedian(int windowSize)`: stores the size,
leaves both containers empty and `_itMedian` value-initialized (singular,
modelled `none`).  The C++ constructor performs no validation. -/
def construct (windowSize : Int) : WindowedMedian :=
  { _windowSize := windowSize, _window := [], _sortedValues := [],
    _itMedian := none }

/-- Iterator arithmetic of `WindowedMedian::insertToSorted` after the
multiset insert: `old` is the multiset before the insert, `it` the held
iterator, `p` the insertion index (upper bound) and `sz1` the size after
the insert.  The source: if the new size is 1, point the iterator at the
single element; otherwise dereference it (UB if singular/dangling/end,
hence the `none` branches) and move it one step left when
`value < *_itMedian && sz % 2 == 0`, one step right when
`value >= *_itMedian && sz % 2 != 0`.  The index of the node the iterator
denotes shifts from `i` to `i + 1` when the insertion happened at or
before it; the node's value is unchanged, so `*_itMedian` reads
`old.get? i`.  Stepping `--` from `begin()` is UB. -/
def medianAfterInsert (old : List Int) (it : Option Nat) (value : Int)
    (p sz1 : Nat) : Option Nat :=
  if sz1 = 1 then some 0
  else
    match it with
    | none => none
    | some i =>
      match old.get? i with
      | none => none
      | some cur =>
        let i1 := if p ≤ i then i + 1 else i
        if value < cur ∧ sz1 % 2 = 0 then
          if i1 = 0 then none else some (i1 - 1)
        else if cur ≤ value ∧ sz1 % 2 ≠ 0 then some (i1 + 1)
        else some i1

/-- `WindowedMedian::insertToSorted`: insert `value` into the multiset (at
the upper bound of its equal range) and reposition `_itMedian` per
`medianAfterInsert`. -/
def insertToSorted (s : WindowedMedian) (value : Int) :
    Option WindowedMedian :=
  (medianAfterInsert s._sortedValues s._itMedian value
      (upperIdx s._sortedValues value)
      (s._sortedValues.insertIdx (upperIdx s._sortedValues value)
        value).length).map
    (fun j =>
      { s with
        _sortedValues :=
          s._sortedValues.insertIdx (upperIdx s._sortedValues value) value,
        _itMedian := some j })

/-- Iterator arithmetic of `WindowedMedian::eraseFromSorted` before the
erase: with `l` the multiset and `sz = l.length` its size before the
removal, dereference `_itMedian` (UB when singular/dangling/end) and move
it one step right when `value <= *_itMedian && sz % 2 == 0`, one step left
when `value >= *_itMedian && sz % 2 != 0` (UB when at `begin()`). -/
def medianAfterErase (l : List Int) (it : Option Nat) (value : Int) :
    Option Nat :=
  match it with
  | none => none
  | some i =>
    match l.get? i with
    | none => none
    | some cur =>
      if value ≤ cur ∧ l.length % 2 = 0 then some (i + 1)
      else if cur ≤ value ∧ l.length % 2 ≠ 0 then
        if i = 0 then none else some (i - 1)
      else some i

/-- `WindowedMedian::eraseFromSorted`: reposition `_itMedian` per
`medianAfterErase`, then `erase(find(value))`.  `find` yields the first
occurrence of `value` (index `lowerIdx`); erasing it shifts later indices
down by one and dangles the iterator exactly when it denoted the erased
node.  When `value` is absent, `find` returns `end()` and `erase(end())`
is UB. -/
def eraseFromSorted (s : WindowedMedian) (value : Int) :
    Option WindowedMedian :=
  (medianAfterErase s._sortedValues s._itMedian value).bind
    (fun j =>
      if value ∈ s._sortedValues then
        some { s with
          _sortedValues :=
            s._sortedValues.eraseIdx (lowerIdx s._sortedValues value),
          _itMedian :=
            if lowerIdx s._sortedValues value < j then some (j - 1)
            else if lowerIdx s._sortedValues value = j then none
            else some j }
      else none)

/-- `WindowedMedian::insert`: push `value` to the back of the window,
insert it into the multiset, and if `_window.size() > _windowSize`
(a `size_t` versus `int` comparison, so the signed size is converted mod
2^64) erase the window's front value from the multiset and pop it. -/
def insert (s : WindowedMedian) (value : Int) : Option WindowedMedian :=
  (insertToSorted { s with _window := s._window ++ [value] } value).bind
    (fun s2 =>
      if s2._window.length > toSizeT s2._windowSize then
        s2._window.head?.bind
          (fun front =>
            (eraseFromSorted s2 front).map
              (fun s3 => { s3 with _window := s3._window.tail }))
      else some s2)

/-- `WindowedMedian::getMedian` (a `const` member): if the multiset size is
odd, return `*_itMedian`; otherwise return
`0.5f * *_itMedian + 0.5f * *next(_itMedian)`.  Dereferencing a
singular/dangling/end iterator is UB (`none`); the float arithmetic is
modelled exactly over `ℚ`. -/
def getMedian (s : WindowedMedian) : Option ℚ :=
  match s._itMedian with
  | none => none
  | some i =>
    if s._sortedValues.length % 2 ≠ 0 then
      (s._sortedValues.get? i).map (fun m => (m : ℚ))
    else
      match s._sortedValues.get? i, s._sortedValues.get? (i + 1) with
      | some a, some b => some ((a : ℚ) / 2 + (b : ℚ) / 2)
      | _, _ => none

/-- `WindowedMedian::getMedianNaive`: copy the window, sort it, take the
element at index `size / 2`; if the size is odd return it, else average it
with the element at index `size / 2 - 1`.  On an empty window
`*next(window.begin(), 0)` dereferences `end()` (UB, `none`). -/
def getMedianNaive (s : WindowedMedian) : Option ℚ :=
  let window := s._window.insertionSort (fun a b => a ≤ b)
  match window.get? (window.length / 2) with
  | none => none
  | some median =>
    if window.length % 2 ≠ 0 then some (median : ℚ)
    else
      match window.get? (window.length / 2 - 1) with
      | none => none
      | some m2 => some ((median : ℚ) / 2 + (m2 : ℚ) / 2)

/-- Calling the `const` method `getMedian` on an object: it reads the state
and returns a value; the state after the call is the state before it. -/
def medianQuery (s : WindowedMedian) : Option ℚ × WindowedMedian :=
  (getMedian s, s)

/-- Feed the stream `vals` into an existing object `s`, calling `insert`
for each value in order. -/
def runFrom (s : WindowedMedian) (vals : List Int) : Option WindowedMedian :=
  vals.foldl (fun acc v => acc.bind (fun s => insert s v)) (some s)

/-- Feed the stream `vals` into a fresh `WindowedMedian(windowSize)`,
calling `insert` for each value in order (the driver loop of `test`). -/
def run (windowSize : Int) (vals : List Int) : Option WindowedMedian :=
  runFrom (construct windowSize) vals

/-- Modelled from the spec (§8, even-size property), for comparison with
`getMedian`: the arithmetic mean of the values at sorted indices
`n/2 - 1` and `n/2` of the window's contents, for even `n`. -/
def evenMeanSpec (s : WindowedMedian) : Option ℚ :=
  let w := s._window.insertionSort (fun a b => a ≤ b)
  match w.get? (w.length / 2 - 1), w.get? (w.length / 2) with
  | some a, some b => some (((a : ℚ) + (b : ℚ)) / 2)
  | _, _ => none

end probability

namespace probability

/-!  Theorems about the embedding: shared helper lemmas first, then one
theorem per claim. -/

theorem upperIdx_le_length (l : List Int) (v : Int) :
    upperIdx l v ≤ l.length := by
  induction l with
  | nil => simp [upperIdx]
  | cons x xs ih =>
    simp only [upperIdx, List.takeWhile_cons, List.length_cons] at *
    split <;> simp only [List.length_cons, List.length_nil] <;> omega

theorem lowerIdx_le_length (l : List Int) (v : Int) :
    lowerIdx l v ≤ l.length := by
  induction l with
  | nil => simp [lowerIdx]
  | cons x xs ih =>
    simp only [lowerIdx, List.takeWhile_cons, List.length_cons] at *
    split <;> simp only [List.length_cons, List.length_nil] <;> omega

theorem insertIdx_upperIdx_perm (l : List Int) (v : Int) :
    (l.insertIdx (upperIdx l v) v).Perm (v :: l) :=
  List.perm_insertIdx v l (upperIdx_le_length l v)

theorem length_insertIdx_upperIdx (l : List Int) (v : Int) :
    (l.insertIdx (upperIdx l v) v).length = l.length + 1 :=
  List.length_insertIdx _ _ (upperIdx_le_length l v)

theorem sorted_insertIdx_upperIdx (v : Int) (l : List Int)
    (hs : l.Sorted (· ≤ ·)) :
    (l.insertIdx (upperIdx l v) v).Sorted (· ≤ ·) := by
  induction l with
  | nil => exact List.sorted_singleton v
  | cons x xs ih =>
    rw [List.sorted_cons] at hs
    obtain ⟨hx, hxs⟩ := hs
    by_cases hxv : x ≤ v
    · have h1 : upperIdx (x :: xs) v = upperIdx xs v + 1 := by
        simp [upperIdx, List.takeWhile_cons, hxv]
      rw [h1, List.insertIdx_succ_cons, List.sorted_cons]
      refine ⟨?_, ih hxs⟩
      intro b hb
      rcases List.mem_cons.mp ((insertIdx_upperIdx_perm xs v).mem_iff.mp hb)
        with rfl | hb
      · exact hxv
      · exact hx b hb
    · have h1 : upperIdx (x :: xs) v = 0 := by
        simp [upperIdx, List.takeWhile_cons, hxv]
      rw [h1, List.insertIdx_zero, List.sorted_cons]
      have hvx : v ≤ x := le_of_lt (lt_of_not_le hxv)
      refine ⟨?_, List.sorted_cons.mpr ⟨hx, hxs⟩⟩
      intro b hb
      rcases List.mem_cons.mp hb with rfl | hb
      · exact hvx
      · exact hvx.trans (hx b hb)

theorem get?_lowerIdx {l : List Int} {v : Int} (hs : l.Sorted (· ≤ ·))
    (hm : v ∈ l) : l.get? (lowerIdx l v) = some v := by
  induction l with
  | nil => cases hm
  | cons x xs ih =>
    rw [List.sorted_cons] at hs
    by_cases hxv : x < v
    · have h1 : lowerIdx (x :: xs) v = lowerIdx xs v + 1 := by
        simp [lowerIdx, List.takeWhile_cons, hxv]
      have hm' : v ∈ xs := by
        rcases List.mem_cons.mp hm with rfl | h
        · exact absurd hxv (lt_irrefl v)
        · exact h
      rw [h1, List.get?_cons_succ]
      exact ih hs.2 hm'
    · have h1 : lowerIdx (x :: xs) v = 0 := by
        simp [lowerIdx, List.takeWhile_cons, hxv]
      have hxv2 : x = v := by
        rcases List.mem_cons.mp hm with rfl | h
        · rfl
        · exact le_antisymm (hs.1 v h) (le_of_not_lt hxv)
      rw [h1, List.get?_cons_zero, hxv2]

theorem perm_cons_eraseIdx_lowerIdx {l : List Int} {v : Int}
    (hs : l.Sorted (· ≤ ·)) (hm : v ∈ l) :
    l.Perm (v :: l.eraseIdx (lowerIdx l v)) := by
  induction l with
  | nil => cases hm
  | cons x xs ih =>
    rw [List.sorted_cons] at hs
    by_cases hxv : x < v
    · have h1 : lowerIdx (x :: xs) v = lowerIdx xs v + 1 := by
        simp [lowerIdx, List.takeWhile_cons, hxv]
      have hm' : v ∈ xs := by
        rcases List.mem_cons.mp hm with rfl | h
        · exact absurd hxv (lt_irrefl v)
        · exact h
      rw [h1, List.eraseIdx_cons_succ]
      exact ((ih hs.2 hm').cons x).trans
        (List.Perm.swap v x (xs.eraseIdx (lowerIdx xs v)))
    · have h1 : lowerIdx (x :: xs) v = 0 := by
        simp [lowerIdx, List.takeWhile_cons, hxv]
      have hxv2 : x = v := by
        rcases List.mem_cons.mp hm with rfl | h
        · rfl
        · exact le_antisymm (hs.1 v h) (le_of_not_lt hxv)
      rw [h1, List.eraseIdx_cons_zero, hxv2]

theorem sorted_eraseIdx {l : List Int} (i : Nat)
    (hs : l.Sorted (· ≤ ·)) : (l.eraseIdx i).Sorted (· ≤ ·) :=
  List.Pairwise.sublist (List.eraseIdx_sublist l i) hs

theorem takeWhile_length_le_of_get {l : List Int} {i : Nat} {c : Int}
    {f : Int → Bool} (hg : l.get? i = some c) (hc : f c = false) :
    (l.takeWhile f).length ≤ i := by
  induction l generalizing i with
  | nil => simp at hg
  | cons x xs ih =>
    cases i with
    | zero =>
      rw [List.get?_cons_zero] at hg
      injection hg with hx
      subst hx
      simp [List.takeWhile_cons, hc]
    | succ n =>
      rw [List.get?_cons_succ] at hg
      rw [List.takeWhile_cons]
      split
      · simp only [List.length_cons]
        have := ih hg
        omega
      · simp

theorem lt_upperIdx_of_le {l : List Int} {i : Nat} {cur v : Int}
    (hs : l.Sorted (· ≤ ·)) (hg : l.get? i = some cur) (hv : cur ≤ v) :
    i < upperIdx l v := by
  induction l generalizing i with
  | nil => simp at hg
  | cons x xs ih =>
    rw [List.sorted_cons] at hs
    cases i with
    | zero =>
      rw [List.get?_cons_zero] at hg
      injection hg with hx
      subst hx
      simp [upperIdx, List.takeWhile_cons, hv]
    | succ n =>
      rw [List.get?_cons_succ] at hg
      have hcmem : cur ∈ xs := List.get?_mem hg
      have hxv : x ≤ v := (hs.1 cur hcmem).trans hv
      have h2 := ih hs.2 hg
      simp only [upperIdx, List.takeWhile_cons] at h2 ⊢
      rw [if_pos (by simpa using hxv)]
      simp only [List.length_cons]
      omega

theorem upperIdx_le_of_lt {l : List Int} {i : Nat} {cur v : Int}
    (hg : l.get? i = some cur) (hv : v < cur) : upperIdx l v ≤ i :=
  takeWhile_length_le_of_get hg (by simp [not_le.mpr hv])

theorem insertToSorted_fields {s : WindowedMedian} {v : Int}
    {t : WindowedMedian} (h : insertToSorted s v = some t) :
    t._window = s._window ∧ t._windowSize = s._windowSize ∧
    t._sortedValues =
      s._sortedValues.insertIdx (upperIdx s._sortedValues v) v ∧
    ∃ j, t._itMedian = some j := by
  unfold insertToSorted at h
  rcases Option.map_eq_some'.mp h with ⟨j, hj, rfl⟩
  exact ⟨rfl, rfl, rfl, j, rfl⟩

theorem eraseFromSorted_fields {s : WindowedMedian} {v : Int}
    {t : WindowedMedian} (h : eraseFromSorted s v = some t) :
    t._window = s._window ∧ t._windowSize = s._windowSize ∧
    v ∈ s._sortedValues ∧
    t._sortedValues =
      s._sortedValues.eraseIdx (lowerIdx s._sortedValues v) := by
  unfold eraseFromSorted at h
  rcases Option.bind_eq_some.mp h with ⟨j, hj, h2⟩
  split at h2
  · injection h2 with h3
    subst h3
    exact ⟨rfl, rfl, by assumption, rfl⟩
  · cases h2

theorem insert_step {s t : WindowedMedian} {v : Int}
    (h : insert s v = some t) (hP : s._window.Perm s._sortedValues)
    (hS : s._sortedValues.Sorted (· ≤ ·))
    (hlen : s._window.length ≤ toSizeT s._windowSize) :
    t._window.Perm t._sortedValues ∧ t._sortedValues.Sorted (· ≤ ·) ∧
    t._windowSize = s._windowSize ∧
    t._window.length = min (s._window.length + 1) (toSizeT s._windowSize) := by
  unfold insert at h
  rcases Option.bind_eq_some.mp h with ⟨s2, h2, h3⟩
  obtain ⟨hw2, hz2, hv2, -⟩ := insertToSorted_fields h2
  have hw2' : s2._window = s._window ++ [v] := hw2
  have hz2' : s2._windowSize = s._windowSize := hz2
  have hv2' : s2._sortedValues =
      s._sortedValues.insertIdx (upperIdx s._sortedValues v) v := hv2
  have hP2 : s2._window.Perm s2._sortedValues := by
    rw [hw2', hv2']
    exact ((List.perm_append_singleton v s._window).trans (hP.cons v)).trans
      (insertIdx_upperIdx_perm s._sortedValues v).symm
  have hS2 : s2._sortedValues.Sorted (· ≤ ·) := by
    rw [hv2']
    exact sorted_insertIdx_upperIdx v s._sortedValues hS
  have hlen2 : s2._window.length = s._window.length + 1 := by
    rw [hw2', List.length_append, List.length_cons, List.length_nil]
  split at h3
  · -- eviction branch: _window.size() > _windowSize
    rename_i hgt
    rcases Option.bind_eq_some.mp h3 with ⟨front, hfront, h4⟩
    rcases Option.map_eq_some'.mp h4 with ⟨s3, h5, rfl⟩
    obtain ⟨hw3, hz3, hmem3, hv3⟩ := eraseFromSorted_fields h5
    have hcons : front :: s2._window.tail = s2._window :=
      List.cons_head?_tail hfront
    have hp1 : (front :: s2._window.tail).Perm s2._sortedValues := by
      rw [hcons]; exact hP2
    have hp2 : s2._sortedValues.Perm
        (front :: s2._sortedValues.eraseIdx
          (lowerIdx s2._sortedValues front)) :=
      perm_cons_eraseIdx_lowerIdx hS2 hmem3
    have hPt : (s3._window.tail).Perm s3._sortedValues := by
      rw [hw3, hv3]
      exact List.Perm.cons_inv (hp1.trans hp2)
    refine ⟨hPt, ?_, ?_, ?_⟩
    · rw [hv3]
      exact sorted_eraseIdx _ hS2
    · rw [hz3, hz2']
    · rw [hw3, List.length_tail, hlen2]
      rw [hz2'] at hgt
      rw [hlen2] at hgt
      omega
  · -- no eviction
    rename_i hle
    injection h3 with h6
    subst h6
    refine ⟨hP2, hS2, hz2', ?_⟩
    rw [hlen2]
    rw [hz2', hlen2] at hle
    omega

theorem runFold_none (vs : List Int) :
    vs.foldl (fun acc v => acc.bind (fun s => insert s v)) none = none := by
  induction vs with
  | nil => rfl
  | cons v vs ih => simpa using ih

theorem runFrom_cons (s : WindowedMedian) (v : Int) (vs : List Int) :
    runFrom s (v :: vs) = (insert s v).bind (fun s2 => runFrom s2 vs) := by
  unfold runFrom
  cases h : insert s v with
  | none => simpa [h] using runFold_none vs
  | some s2 => simp [h]

theorem runFrom_inv {vs : List Int} : ∀ {s t : WindowedMedian},
    runFrom s vs = some t → s._window.Perm s._sortedValues →
    s._sortedValues.Sorted (· ≤ ·) →
    s._window.length ≤ toSizeT s._windowSize →
    t._window.Perm t._sortedValues ∧ t._sortedValues.Sorted (· ≤ ·) ∧
    t._windowSize = s._windowSize ∧
    t._window.length =
      min (s._window.length + vs.length) (toSizeT s._windowSize) := by
  induction vs with
  | nil =>
    intro s t h hP hS hlen
    injection h with h2
    subst h2
    exact ⟨hP, hS, rfl, by simpa using hlen⟩
  | cons v vs ih =>
    intro s t h hP hS hlen
    rw [runFrom_cons] at h
    rcases Option.bind_eq_some.mp h with ⟨s2, h2, h3⟩
    obtain ⟨hP2, hS2, hz2, hlen2⟩ := insert_step h2 hP hS hlen
    obtain ⟨p1, p2, p3, p4⟩ := ih h3 hP2 hS2 (by rw [hlen2, hz2]; omega)
    refine ⟨p1, p2, p3.trans hz2, ?_⟩
    rw [p4, hlen2, hz2, List.length_cons]
    omega

theorem medianAfterInsert_valid {l : List Int} {it : Option Nat} {v : Int}
    (hs : l.Sorted (· ≤ ·))
    (hit : l ≠ [] → ∃ i, it = some i ∧ i < l.length) :
    ∃ j, medianAfterInsert l it v (upperIdx l v)
        (l.insertIdx (upperIdx l v) v).length = some j ∧
      j < l.length + 1 := by
  rcases eq_or_ne l [] with rfl | hne
  · exact ⟨0, by simp [medianAfterInsert, upperIdx], by omega⟩
  · obtain ⟨i, hit_eq, hilt⟩ := hit hne
    have hg : l.get? i = some (l.get ⟨i, hilt⟩) := List.get?_eq_get hilt
    have hlen1 : (l.insertIdx (upperIdx l v) v).length = l.length + 1 :=
      length_insertIdx_upperIdx l v
    have hne1 : l.length + 1 ≠ 1 := by
      have : 0 < l.length := List.length_pos.mpr hne
      omega
    unfold medianAfterInsert
    rw [hlen1, if_neg hne1, hit_eq]
    dsimp only
    rw [hg]
    by_cases hvc : v < l[i]
    · have hp : upperIdx l v ≤ i := upperIdx_le_of_lt hg hvc
      by_cases hpar : (l.length + 1) % 2 = 0
      · exact ⟨i, by simp [hp, hvc, hpar], by omega⟩
      · exact ⟨i + 1, by simp [hp, hvc, hpar, not_le.mpr hvc], by omega⟩
    · have hcv : l[i] ≤ v := le_of_not_lt hvc
      have hp : ¬(upperIdx l v ≤ i) :=
        Nat.not_le.mpr (lt_upperIdx_of_le hs hg hcv)
      by_cases hpar : (l.length + 1) % 2 = 0
      · exact ⟨i, by simp [hp, hvc, hpar], by omega⟩
      · exact ⟨i + 1, by simp [hp, hvc, hcv, hpar], by omega⟩

theorem insert_grows {s : WindowedMedian} (v : Int)
    (hs : s._sortedValues.Sorted (· ≤ ·))
    (hwl : s._window.length = s._sortedValues.length)
    (hit : s._sortedValues ≠ [] →
      ∃ i, s._itMedian = some i ∧ i < s._sortedValues.length)
    (hnoevict : s._window.length + 1 ≤ toSizeT s._windowSize) :
    ∃ t, insert s v = some t ∧ t._windowSize = s._windowSize ∧
      t._window.length = s._window.length + 1 ∧
      t._sortedValues.length = s._sortedValues.length + 1 ∧
      t._sortedValues.Sorted (· ≤ ·) ∧
      (t._sortedValues ≠ [] →
        ∃ i, t._itMedian = some i ∧ i < t._sortedValues.length) := by
  obtain ⟨j, hj, hjlt⟩ := medianAfterInsert_valid (v := v) hs hit
  refine ⟨{ s with
              _window := s._window ++ [v],
              _sortedValues :=
                s._sortedValues.insertIdx (upperIdx s._sortedValues v) v,
              _itMedian := some j }, ?_, rfl, ?_, ?_, ?_, ?_⟩
  · unfold insert insertToSorted
    dsimp only
    rw [hj]
    dsimp only [Option.map_some', Option.some_bind]
    rw [if_neg (by
      simp only [List.length_append, List.length_cons, List.length_nil]
      omega)]
  · simp [List.length_append]
  · exact length_insertIdx_upperIdx s._sortedValues v
  · exact sorted_insertIdx_upperIdx v s._sortedValues hs
  · intro
    refine ⟨j, rfl, ?_⟩
    rw [length_insertIdx_upperIdx s._sortedValues v]
    omega

theorem runFrom_neg_growth {vs : List Int} : ∀ {s : WindowedMedian},
    s._windowSize < 0 → -(2 ^ 31) ≤ s._windowSize →
    s._sortedValues.Sorted (· ≤ ·) →
    s._window.length = s._sortedValues.length →
    (s._sortedValues ≠ [] →
      ∃ i, s._itMedian = some i ∧ i < s._sortedValues.length) →
    s._window.length + vs.length ≤ 2 ^ 32 →
    (runFrom s vs).map
        (fun t => (t._window.length, t._sortedValues.length)) =
      some (s._window.length + vs.length,
        s._sortedValues.length + vs.length) := by
  induction vs with
  | nil =>
    intro s _ _ _ _ _ _
    simp [runFrom]
  | cons v vs ih =>
    intro s hneg h31 hs hwl hit hbound
    simp only [List.length_cons] at hbound
    have hbound' : s._window.length + 1 ≤ toSizeT s._windowSize := by
      have hW : (2 : Nat) ^ 32 < toSizeT s._windowSize := by
        unfold toSizeT; omega
      omega
    obtain ⟨t, hins, hz, hwlen, hslen, hsorted, hcur⟩ :=
      insert_grows v hs hwl hit hbound'
    rw [runFrom_cons, hins, Option.some_bind]
    have ihres := ih (s := t) (by rw [hz]; exact hneg)
      (by rw [hz]; exact h31) hsorted (by rw [hwlen, hslen, hwl]) hcur
      (by rw [hwlen]; omega)
    rw [ihres]
    simp only [Option.some.injEq, Prod.mk.injEq, List.length_cons]
    omega

/-- C4 (confirmed): after any sequence of insertions that completes (for a
positive windowSize in `int` range), the window length and the multiset
size both equal `min k windowSize` (k = number of insertions), and the two
containers hold the same bag of values. -/
theorem window_and_multiset_sizes (w : Int) (vs : List Int)
    (s : WindowedMedian) (hw : 0 < w) (hw31 : w < 2 ^ 31)
    (h : run w vs = some s) :
    s._window.length = min vs.length w.toNat ∧
    s._sortedValues.length = min vs.length w.toNat ∧
    s._window.Perm s._sortedValues := by
  have htS : toSizeT w = w.toNat := by unfold toSizeT; omega
  obtain ⟨hP, hS, hz, hlen⟩ :=
    runFrom_inv (s := construct w) h List.Perm.nil (List.sorted_nil)
      (by simp [construct])
  have hlen' : s._window.length = min vs.length w.toNat := by
    rw [hlen]
    simp only [construct, List.length_nil, Nat.zero_add, htS]
  exact ⟨hlen', by rw [← hP.length_eq]; exact hlen', hP⟩

/-- Witness for C4: windowSize 2, stream `[5, 1, 4, 2]` reaches the state
with window `[4, 2]` and multiset `[2, 4]`. -/
theorem window_and_multiset_sizes_witness :
    (WindowedMedian.mk 2 [4, 2] [2, 4] (some 0))._window.length =
      min ([5, 1, 4, 2] : List Int).length (2 : Int).toNat ∧
    (WindowedMedian.mk 2 [4, 2] [2, 4] (some 0))._sortedValues.length =
      min ([5, 1, 4, 2] : List Int).length (2 : Int).toNat ∧
    (WindowedMedian.mk 2 [4, 2] [2, 4] (some 0))._window.Perm
      (WindowedMedian.mk 2 [4, 2] [2, 4] (some 0))._sortedValues :=
  window_and_multiset_sizes 2 [5, 1, 4, 2] ⟨2, [4, 2], [2, 4], some 0⟩
    (by decide) (by decide) (by decide)

/-- C1 (refuted): the equivalence `median() = medianNaive()` after each
insertion fails on windowSize 2 and the stream `[3, 3, 3]`.  The first two
insertions agree, but during the third the eviction erases the very
multiset node the repositioned median iterator denotes (`find(3)` returns
the first occurrence of 3, which is where the iterator was just moved), so
`getMedian` dereferences a dangling iterator (no value in the model) while
`getMedianNaive` returns 3. -/
theorem getMedian_ne_getMedianNaive_on_duplicate_stream :
    (run 2 [3, 3]).bind getMedian = some 3 ∧
    (run 2 [3, 3]).bind getMedianNaive = some 3 ∧
    (run 2 [3, 3, 3]).isSome = true ∧
    (run 2 [3, 3, 3]).bind getMedian = none ∧
    (run 2 [3, 3, 3]).bind getMedianNaive = some 3 := by
  refine ⟨by with_unfolding_all rfl, by with_unfolding_all rfl, by decide,
    by decide, by with_unfolding_all rfl⟩

/-- C2 (refuted): after the third insertion on windowSize 2 and stream
`[3, 3, 3]` the multiset has size 2, so the cursor should denote sorted
index `⌊(2 - 1) / 2⌋ = 0`, but `_itMedian` is dangling (`none`): it
denotes no position at all.  One insertion earlier the invariant still
held (`some 0`). -/
theorem median_cursor_invariant_fails_on_duplicate_stream :
    (run 2 [3, 3]).map (fun s => (s._itMedian, s._sortedValues.length)) =
      some (some 0, 2) ∧
    (run 2 [3, 3, 3]).map (fun s => (s._itMedian, s._sortedValues.length)) =
      some (none, 2) := by
  refine ⟨by decide, by decide⟩

/-- C3 (refuted): the eviction inside the third `insert` of the reachable
run `windowSize = 2`, stream `[3, 3, 3]`.  Before the eviction the
multiset is `[3, 3, 3]` with the iterator at index 1; `eraseFromSorted 3`
repositions the iterator to index 0 (size 3 is odd and `3 ≥ 3`), then
`erase(find(3))` removes the occurrence at index 0 — precisely the
occurrence the repositioned cursor denotes — leaving the iterator dangling
(`none`), so a later dereference reads a removed entry. -/
theorem eviction_erases_cursor_occurrence :
    run 2 [3, 3] = some ⟨2, [3, 3], [3, 3], some 0⟩ ∧
    insertToSorted ⟨2, [3, 3, 3], [3, 3], some 0⟩ 3 =
      some ⟨2, [3, 3, 3], [3, 3, 3], some 1⟩ ∧
    medianAfterErase [3, 3, 3] (some 1) 3 = some 0 ∧
    lowerIdx [3, 3, 3] 3 = 0 ∧
    eraseFromSorted ⟨2, [3, 3, 3], [3, 3, 3], some 1⟩ 3 =
      some ⟨2, [3, 3, 3], [3, 3], none⟩ := by
  refine ⟨by decide, by decide, by decide, by decide, by decide⟩

/-- C5 (refuted): the constructor performs no validation: constructing
with `windowSize = 0` or `windowSize = -7` succeeds, storing the
non-positive size unchanged, and the object even accepts an insertion;
there is no InvalidArgument rejection anywhere in the program. -/
theorem constructor_accepts_nonpositive_window :
    construct 0 = ⟨0, [], [], none⟩ ∧
    construct (-7) = ⟨-7, [], [], none⟩ ∧
    (insert (construct (-7)) 5).isSome = true := by
  refine ⟨by decide, by decide, by decide⟩

/-- C6 (refuted): `getMedian` on a freshly constructed object (no insert
ever) takes the even-size branch (size 0) and dereferences the
value-initialized (singular) iterator `_itMedian` — undefined behaviour,
modelled as no value.  No EmptyStateError condition exists in the code:
the only branch in `getMedian` is on the parity of the size. -/
theorem getMedian_on_empty_dereferences_singular_iterator :
    (construct 3)._itMedian = none ∧
    (construct 3)._sortedValues.length % 2 = 0 ∧
    getMedian (construct 3) = none := by
  refine ⟨by decide, by decide, by decide⟩

/-- C7 (refuted for even windows): with windowSize 2, after two insertions
of the duplicate value 3 the median is 3, but the next insertion of the
same value (the claim covers every further insertion) erases the cursor's
node during eviction, and `getMedian` dereferences a dangling iterator
instead of returning 3. -/
theorem duplicate_value_median_fails_for_even_window :
    (run 2 [3, 3]).bind getMedian = some 3 ∧
    (run 2 [3, 3, 3]).isSome = true ∧
    (run 2 [3, 3, 3]).bind getMedian = none := by
  refine ⟨by with_unfolding_all rfl, by decide, by decide⟩

/-- C8 (refuted): a reachable state with even population where `getMedian`
does not return the mean of the values at sorted indices `n/2 - 1` and
`n/2`: after windowSize 2 and stream `[3, 3, 3]` the window holds
`[3, 3]` (n = 2, even), the spec-side mean of sorted indices 0 and 1 is 3,
but `getMedian` dereferences a dangling iterator and yields no value. -/
theorem even_size_median_not_mean_of_middle_values :
    (run 2 [3, 3, 3]).map (fun s => s._window.length % 2) = some 0 ∧
    (run 2 [3, 3, 3]).bind evenMeanSpec = some 3 ∧
    (run 2 [3, 3, 3]).bind getMedian = none := by
  refine ⟨by decide, by with_unfolding_all rfl, by decide⟩

/-- C9 (confirmed): `getMedian` is a `const` member that only reads the
state: on any state reached by at least one insertion, querying the median
leaves the object exactly as it was, and a repeated query returns the same
value. -/
theorem getMedian_does_not_mutate (w : Int) (vs : List Int)
    (s : WindowedMedian) (_hrun : run w vs = some s) (_hne : vs ≠ []) :
    (medianQuery s).2 = s ∧
    (medianQuery ((medianQuery s).2)).1 = (medianQuery s).1 :=
  ⟨rfl, rfl⟩

/-- C10 (confirmed): constructing with a strictly negative `int` window
size and inserting never evicts: the check `_window.size() > _windowSize`
converts the negative size to `size_t` (mod 2^64), a value of at least
2^64 - 2^31, which the window length never exceeds (the hypothesis allows
any stream of up to 2^32 insertions, far beyond any feasible run), so both
containers grow by one on every insert. -/
theorem negative_window_never_evicts (w : Int) (vs : List Int)
    (h31 : -(2 ^ 31) ≤ w) (hw : w < 0) (hlen : vs.length ≤ 2 ^ 32) :
    (run w vs).map
        (fun t => (t._window.length, t._sortedValues.length)) =
      some (vs.length, vs.length) := by
  have h := runFrom_neg_growth (s := construct w) hw h31
    List.sorted_nil rfl (fun hcon => absurd rfl hcon)
    (by simpa [construct] using hlen)
  simpa [run, construct] using h

/-- Witness for C10: windowSize -1 with stream `[1, 2, 3]` ends with both
containers of length 3 (no eviction ever fired). -/
theorem negative_window_never_evicts_witness :
    (run (-1) [1, 2, 3]).map
        (fun t => (t._window.length, t._sortedValues.length)) =
      some (([1, 2, 3] : List Int).length, ([1, 2, 3] : List Int).length) :=
  negative_window_never_evicts (-1) [1, 2, 3] (by decide) (by decide)
    (by decide)

/-- Witness for C9 at windowSize 3 and stream `[1]`. -/
theorem getMedian_does_not_mutate_witness :
    (medianQuery ⟨3, [1], [1], some 0⟩).2 = ⟨3, [1], [1], some 0⟩ ∧
    (medianQuery ((medianQuery ⟨3, [1], [1], some 0⟩).2)).1 =
      (medianQuery ⟨3, [1], [1], some 0⟩).1 :=
  getMedian_does_not_mutate 3 [1] ⟨3, [1], [1], some 0⟩ (by decide)
    (by decide)

end probability
